import Mathlib

/-!
Verification of the restricted arithmetic-expression evaluator of
`src/CalculatorApp.py` (function `safe_eval` with helper `_eval_ast`, plus the
`compute` handler that formats and stores results).

Modelling conventions:

* Python's AST for the expression sublanguage reachable through `safe_eval`
  is embedded as the inductive `Expr` below; Python exceptions raised by
  `safe_eval`/`_eval_ast` become the inductive `Err`.
* Python `int` is embedded as `ℤ`, Python `bool` as `Bool` (recalling that in
  Python `bool` is a subtype of `int`, which matters for the
  `isinstance(node.value, (int, float))` literal check).
* Python `float` is embedded exactly: a floating-point value is either an
  explicit fraction `PRat` (an unnormalised pair of integers, so that all
  arithmetic is kernel-computable) or an opaque symbolic real `RExp` produced
  by a transcendental function (`sin`, `log` of a non-exact point, the
  constants `pi`, `e`, `tau`, `inf`, `nan`, ...).  IEEE-754 rounding is
  abstracted away: operations whose mathematical value is an exact
  representable number are modelled by that exact number, and all other
  float results are modelled as opaque symbolic values about which the
  development proves nothing.  Every claim checked here only ever meets
  float values at points where the CPython result is exact
  (e.g. `math.sqrt(16.0) = 4.0` and `math.log(100, 10) = 2.0`, both exact in
  CPython), so no claim depends on the abstracted rounding.
* `math.factorial` is modelled after modern CPython (>= 3.10): any `float`
  argument raises (`TypeError`), a negative `int` raises (`ValueError`).
* Python's expression parser (`ast.parse(expr, mode="eval")`) is not part of
  the repository; the tokenizer and recursive-descent parser below model its
  grammar restricted to the surface reachable by the spec (§4.2/§6): numeric
  literals, string literals, names, `True`/`False`/`None`, unary `+ -`,
  binary `+ - * / % // **`, parentheses, call syntax with positional and
  keyword arguments, and comma tuples.  Inputs outside this surface (bitwise
  operators, comparisons, attribute access, ...) fail at the parsing stage of
  the model, whereas CPython may instead reject them at the AST-walk stage;
  no claim distinguishes the two.
-/

namespace CalcApp

/-- Binary operator kinds producible by the modelled grammar.  These are
exactly the `ast.BinOp` operator classes reachable through `safe_eval`
(`ast.BitXor` is unreachable because every `^` is rewritten to `**` before
parsing), and all of them are keys of `_OPERATORS`. -/
inductive BOp
| add | sub | mult | div | pow | mod | floordiv
deriving DecidableEq, Repr

/-- Unary operator kinds: `ast.USub` and `ast.UAdd`, both in `_OPERATORS`. -/
inductive UOp
| usub | uadd
deriving DecidableEq, Repr

/-- Unnormalised fraction: the exact value of a Python number.  The
denominator is kept positive by all constructions below; fractions are not
reduced, so all arithmetic is plain integer arithmetic. -/
structure PRat where
  num : ℤ
  den : ℤ
deriving DecidableEq, Repr

/-- Opaque symbolic real: a float value whose exact magnitude the model does
not track (transcendental function results and the irrational/non-finite
constants).  The payload records how the value arose. -/
inductive RExp
| piR | eulerR | tauR | infR | nanR
| ofRat (q : PRat)
| fnR (name : String) (args : List RExp)
| binR (o : BOp) (l r : RExp)
| unR (o : UOp) (a : RExp)

/-- Literal constant payloads of `ast.Constant` reachable through the
modelled grammar. -/
inductive Const
| intC (n : ℤ)
| floatC (q : PRat)
| strC (s : String)
| boolC (b : Bool)
| noneC

/-- The Python AST (`ast` module) restricted to the node kinds producible by
`ast.parse(expr, mode="eval")` on the modelled grammar: `Constant`, `BinOp`,
`UnaryOp`, `Call` (with positional and keyword arguments), `Name`, `Tuple`.
The surrounding `ast.Expression` wrapper is implicit (its only content is its
body). -/
inductive Expr
| constE (c : Const)
| binOp (l : Expr) (o : BOp) (r : Expr)
| unaryOp (o : UOp) (e : Expr)
| callE (f : Expr) (args : List Expr) (kwargs : List (String × Expr))
| nameE (id : String)
| tupleE (elts : List Expr)

/-- Runtime values `_eval_ast` can return: Python `int`, `bool`, `float`
(exact or opaque), and tuples of values (`ast.Tuple` evaluation). -/
inductive Value
| intV (n : ℤ)
| boolV (b : Bool)
| floatV (r : RExp)
| tupleV (vs : List Value)

/-- Python exceptions raised by the whitelisted operators and math functions
and caught by the `try/except` blocks of `_eval_ast` (each becomes
`EvalError(str(e))`). -/
inductive PyExc
| zeroDivision
| mathDomain
| negFactorial
| floatFactorial
| typeErr (msg : String)
deriving DecidableEq, Repr

/-- The `EvalError` outcomes of `safe_eval`, one constructor per `raise` site
in the source. -/
inductive Err
| emptyExpr
| invalidToken
| parseErr (msg : String)
| unsupConst (ty : String)
| opFailed (e : PyExc)
| funcNotAllowed (name : String)
| onlyDirectCalls
| nameNotAllowed (name : String)
| disallowedNode (kind : String)
deriving DecidableEq, Repr

/-- Modelled from the spec: the error taxonomy of §7 (`EmptyInput`,
`ForbiddenToken`, `SyntaxError`, `DisallowedConstruct`, `ArityError`,
`DomainError`), which classifies the code's `EvalError` messages; the code
itself raises a single exception class. -/
inductive ErrKind
| emptyInput | forbiddenToken | synError | disallowedConstruct | arityError | domainError
deriving DecidableEq, Repr

/-- Modelled from the spec: map each raise site of the code to the §7 error
kind the spec assigns to it.  Division by zero and the `math` domain/factorial
failures are `DomainError`; wrong-argument-count/type failures of whitelisted
calls are `ArityError`; all whitelist rejections are `DisallowedConstruct`. -/
def classify : Err → ErrKind
| .emptyExpr => .emptyInput
| .invalidToken => .forbiddenToken
| .parseErr _ => .synError
| .unsupConst _ => .disallowedConstruct
| .funcNotAllowed _ => .disallowedConstruct
| .onlyDirectCalls => .disallowedConstruct
| .nameNotAllowed _ => .disallowedConstruct
| .disallowedNode _ => .disallowedConstruct
| .opFailed .zeroDivision => .domainError
| .opFailed .mathDomain => .domainError
| .opFailed .negFactorial => .domainError
| .opFailed .floatFactorial => .domainError
| .opFailed (.typeErr _) => .arityError

/-! ### Exact fraction arithmetic -/

def PRat.ofInt (n : ℤ) : PRat := ⟨n, 1⟩

/-- Semantic value of a fraction, used only in theorem statements. -/
def PRat.toRat (a : PRat) : ℚ := (a.num : ℚ) / (a.den : ℚ)

def PRat.addP (a b : PRat) : PRat := ⟨a.num * b.den + b.num * a.den, a.den * b.den⟩

def PRat.subP (a b : PRat) : PRat := ⟨a.num * b.den - b.num * a.den, a.den * b.den⟩

def PRat.mulP (a b : PRat) : PRat := ⟨a.num * b.num, a.den * b.den⟩

/-- Exact division, keeping the denominator positive.  Callers check for a
zero divisor first. -/
def PRat.divP (a b : PRat) : PRat :=
  if b.num < 0 then ⟨-(a.num * b.den), a.den * (-b.num)⟩ else ⟨a.num * b.den, a.den * b.num⟩

def PRat.negP (a : PRat) : PRat := ⟨-a.num, a.den⟩

def PRat.absP (a : PRat) : PRat := ⟨|a.num|, a.den⟩

def PRat.isZero (a : PRat) : Bool := a.num = 0

def PRat.isOne (a : PRat) : Bool := a.num = a.den

def PRat.bltP (a b : PRat) : Bool := a.num * b.den < b.num * a.den

def PRat.bleP (a b : PRat) : Bool := a.num * b.den ≤ b.num * a.den

/-- Floor of the fraction (denominators are positive, so `Int.fdiv` is the
mathematical floor). -/
def PRat.floorP (a : PRat) : ℤ := Int.fdiv a.num a.den

/-- Whether the fraction is an exact integer. -/
def PRat.isIntP (a : PRat) : Bool := Int.emod a.num a.den = 0

def PRat.toIntP (a : PRat) : ℤ := Int.fdiv a.num a.den

/-- Power of ten as a fraction, for any integer exponent. -/
def pow10 (k : ℤ) : PRat :=
  if 0 ≤ k then ⟨(10 : ℤ) ^ k.toNat, 1⟩ else ⟨1, (10 : ℤ) ^ (-k).toNat⟩

/-- Integer power of a fraction (negative exponents via the reciprocal; the
caller excludes a zero base with a negative exponent). -/
def PRat.zpowP (a : PRat) (k : ℤ) : PRat :=
  if 0 ≤ k then ⟨a.num ^ k.toNat, a.den ^ k.toNat⟩
  else if a.num < 0 then ⟨-(a.den ^ (-k).toNat), (-a.num) ^ (-k).toNat⟩
  else ⟨a.den ^ (-k).toNat, a.num ^ (-k).toNat⟩

/-! ### Numeric views of values -/

/-- Integer view: Python `int`s and `bool`s (a `bool` is an `int` whose value
is 0 or 1). -/
def Value.asInt? : Value → Option ℤ
| .intV n => some n
| .boolV b => some (if b then 1 else 0)
| _ => none

/-- Exact-fraction view: `int`, `bool`, and exact `float` values. -/
def Value.asFrac? : Value → Option PRat
| .intV n => some (PRat.ofInt n)
| .boolV b => some (PRat.ofInt (if b then 1 else 0))
| .floatV (.ofRat q) => some q
| _ => none

/-- Real-number view: any non-tuple value, as a symbolic real. -/
def Value.asReal? : Value → Option RExp
| .intV n => some (.ofRat (PRat.ofInt n))
| .boolV b => some (.ofRat (PRat.ofInt (if b then 1 else 0)))
| .floatV r => some r
| .tupleV _ => none

/-- Rational reading of a value, used only in theorem statements. -/
def Value.asQ? : Value → Option ℚ
| .intV n => some (n : ℚ)
| .boolV b => some (if b then 1 else 0)
| .floatV (.ofRat q) => some q.toRat
| _ => none

/-! ### Binary and unary operator application (`_OPERATORS`)

`op.add`, `op.sub`, ... from the `operator` module, with Python's numeric
semantics: `int op int` stays `int` (except true division, which is always
`float`), any `float` operand makes the result `float`, `//` and `%` follow
floor-division sign conventions, `**` on `int`s with a non-negative exponent
is `int` and otherwise `float`.  Operations on symbolic floats produce
symbolic floats; their zero/domain checks are abstracted (no claim reaches
them).  Non-numeric operands raise `TypeError`. -/

def intBin : BOp → ℤ → ℤ → Except PyExc Value
| .add, x, y => .ok (.intV (x + y))
| .sub, x, y => .ok (.intV (x - y))
| .mult, x, y => .ok (.intV (x * y))
| .div, x, y =>
    if y = 0 then .error .zeroDivision
    else .ok (.floatV (.ofRat (PRat.divP (PRat.ofInt x) (PRat.ofInt y))))
| .pow, x, y =>
    if 0 ≤ y then .ok (.intV (x ^ y.toNat))
    else if x = 0 then .error .zeroDivision
    else .ok (.floatV (.ofRat (PRat.zpowP (PRat.ofInt x) y)))
| .mod, x, y => if y = 0 then .error .zeroDivision else .ok (.intV (Int.fmod x y))
| .floordiv, x, y => if y = 0 then .error .zeroDivision else .ok (.intV (Int.fdiv x y))

def fracBin : BOp → PRat → PRat → Except PyExc Value
| .add, x, y => .ok (.floatV (.ofRat (x.addP y)))
| .sub, x, y => .ok (.floatV (.ofRat (x.subP y)))
| .mult, x, y => .ok (.floatV (.ofRat (x.mulP y)))
| .div, x, y => if y.isZero then .error .zeroDivision else .ok (.floatV (.ofRat (x.divP y)))
| .pow, x, y =>
    if y.isIntP then
      if x.isZero ∧ y.toIntP < 0 then .error .zeroDivision
      else .ok (.floatV (.ofRat (x.zpowP y.toIntP)))
    else .ok (.floatV (.binR .pow (.ofRat x) (.ofRat y)))
| .mod, x, y =>
    if y.isZero then .error .zeroDivision
    else .ok (.floatV (.ofRat (x.subP (y.mulP (PRat.ofInt (PRat.floorP (x.divP y)))))))
| .floordiv, x, y =>
    if y.isZero then .error .zeroDivision
    else .ok (.floatV (.ofRat (PRat.ofInt (PRat.floorP (x.divP y)))))

def applyBin (o : BOp) (a b : Value) : Except PyExc Value :=
  match a.asInt?, b.asInt? with
  | some x, some y => intBin o x y
  | _, _ =>
    match a.asFrac?, b.asFrac? with
    | some x, some y => fracBin o x y
    | _, _ =>
      match a.asReal?, b.asReal? with
      | some x, some y => .ok (.floatV (.binR o x y))
      | _, _ => .error (.typeErr "unsupported operand type(s)")

def applyUn (o : UOp) (a : Value) : Except PyExc Value :=
  match a.asInt? with
  | some x => .ok (.intV (match o with | .usub => -x | .uadd => x))
  | none =>
    match a with
    | .floatV (.ofRat q) =>
        .ok (.floatV (.ofRat (match o with | .usub => q.negP | .uadd => q)))
    | .floatV r => .ok (.floatV (.unR o r))
    | _ => .error (.typeErr "bad operand type for unary operator")

/-! ### Whitelisted math functions (`_MATH_FUNCS`) -/

/-- Linear-search integer square root (kernel-computable), used only to
detect exact squares. -/
def isqrtAux (n : ℕ) : ℕ → ℕ
| 0 => 0
| k + 1 => if (k + 1) * (k + 1) ≤ n then k + 1 else isqrtAux n k

def isqrt (n : ℕ) : ℕ := isqrtAux n n

/-- Exact rational square root, when it exists (the argument is
non-negative with a positive denominator). -/
def ratSqrt? (q : PRat) : Option PRat :=
  let n := q.num.toNat
  let d := q.den.toNat
  if isqrt n * isqrt n = n ∧ isqrt d * isqrt d = d then
    some ⟨(isqrt n : ℤ), (isqrt d : ℤ)⟩
  else none

/-- Repeated exact division: `expFitAux b fuel x = some k` iff `x = b ^ k`
(for `b ≥ 2`, `x ≥ 1`, with enough fuel). -/
def expFitAux (b : ℕ) : ℕ → ℕ → Option ℕ
| 0, _ => none
| _, 1 => some 0
| fuel + 1, x =>
    if x % b = 0 ∧ x ≠ 0 then (expFitAux b fuel (x / b)).map Nat.succ else none

def expFit (b x : ℕ) : Option ℕ := expFitAux b (x + 1) x

/-- Exact integer base-`b` logarithm of `x`, when both are integers with
`b ≥ 2`, `x ≥ 1` and `x` is a power of `b`. -/
def exactLog? (b x : PRat) : Option ℤ :=
  if b.isIntP ∧ x.isIntP ∧ 2 ≤ b.toIntP ∧ 1 ≤ x.toIntP then
    (expFit b.toIntP.toNat x.toIntP.toNat).map (fun k => (k : ℤ))
  else none

/-- One-argument real function with a domain predicate and an
exact-value case; symbolic arguments get symbolic results (their domain
check is abstracted). -/
def realFun1 (fname : String) (dom : PRat → Bool) (exact : PRat → Option PRat)
    (v : Value) : Except PyExc Value :=
  match v.asFrac? with
  | some q =>
      if dom q then
        match exact q with
        | some r => .ok (.floatV (.ofRat r))
        | none => .ok (.floatV (.fnR fname [.ofRat q]))
      else .error .mathDomain
  | none =>
    match v.asReal? with
    | some r => .ok (.floatV (.fnR fname [r]))
    | none => .error (.typeErr "must be real number")

/-- `math.log(x, base)`: computed as `log(x)/log(base)`; non-positive
arguments raise `ValueError`, base 1 divides by `log(1) = 0`. -/
def logBase (x b : Value) : Except PyExc Value :=
  match x.asFrac?, b.asFrac? with
  | some xq, some bq =>
      if xq.bleP ⟨0, 1⟩ ∨ bq.bleP ⟨0, 1⟩ then .error .mathDomain
      else if bq.isOne then .error .zeroDivision
      else
        match exactLog? bq xq with
        | some k => .ok (.floatV (.ofRat (PRat.ofInt k)))
        | none => .ok (.floatV (.fnR "log" [.ofRat xq, .ofRat bq]))
  | _, _ =>
    match x.asReal?, b.asReal? with
    | some xr, some br => .ok (.floatV (.fnR "log" [xr, br]))
    | _, _ => .error (.typeErr "must be real number")

/-- `math.factorial`: modern CPython rejects every `float` argument with
`TypeError` and negative integers with `ValueError`. -/
def factorialFn (v : Value) : Except PyExc Value :=
  match v.asInt? with
  | some n => if n < 0 then .error .negFactorial else .ok (.intV (Nat.factorial n.toNat : ℤ))
  | none =>
    match v with
    | .floatV _ => .error .floatFactorial
    | _ => .error (.typeErr "an integer is required")

/-- `abs` (built-in): preserves the numeric type. -/
def absFn (v : Value) : Except PyExc Value :=
  match v.asInt? with
  | some n => .ok (.intV |n|)
  | none =>
    match v with
    | .floatV (.ofRat q) => .ok (.floatV (.ofRat q.absP))
    | .floatV r => .ok (.floatV (.fnR "abs" [r]))
    | _ => .error (.typeErr "bad operand type for abs")

/-- `math.ceil` / `math.floor`: return an `int`; on symbolic floats the
result is abstracted as an opaque value. -/
def ceilFloorFn (fname : String) (ceil : Bool) (v : Value) : Except PyExc Value :=
  match v.asInt? with
  | some n => .ok (.intV n)
  | none =>
    match v with
    | .floatV (.ofRat q) =>
        .ok (.intV (if ceil then -(PRat.floorP q.negP) else PRat.floorP q))
    | .floatV r => .ok (.floatV (.fnR fname [r]))
    | _ => .error (.typeErr "must be real number")

def alwaysTrue : PRat → Bool := fun _ => true

def noExact : PRat → Option PRat := fun _ => none

/-- Dispatch table for `_MATH_FUNCS`, including each function's CPython
domain behaviour.  A wrong argument count raises `TypeError` (caught and
wrapped like every other exception from the call). -/
def applyFun : String → List Value → Except PyExc Value
| "sin", [v] => realFun1 "sin" alwaysTrue noExact v
| "cos", [v] => realFun1 "cos" alwaysTrue noExact v
| "tan", [v] => realFun1 "tan" alwaysTrue noExact v
| "asin", [v] => realFun1 "asin" (fun q => q.absP.bleP ⟨1, 1⟩) noExact v
| "acos", [v] => realFun1 "acos" (fun q => q.absP.bleP ⟨1, 1⟩) noExact v
| "atan", [v] => realFun1 "atan" alwaysTrue noExact v
| "sqrt", [v] => realFun1 "sqrt" (fun q => PRat.bleP ⟨0, 1⟩ q) ratSqrt? v
| "log", [v] => realFun1 "log" (fun q => PRat.bltP ⟨0, 1⟩ q)
    (fun q => if q.isOne then some ⟨0, 1⟩ else none) v
| "log", [x, b] => logBase x b
| "ln", [v] => realFun1 "log" (fun q => PRat.bltP ⟨0, 1⟩ q)
    (fun q => if q.isOne then some ⟨0, 1⟩ else none) v
| "log10", [v] => realFun1 "log10" (fun q => PRat.bltP ⟨0, 1⟩ q)
    (fun q => if q.isOne then some ⟨0, 1⟩ else none) v
| "exp", [v] => realFun1 "exp" alwaysTrue noExact v
| "abs", [v] => absFn v
| "ceil", [v] => ceilFloorFn "ceil" true v
| "floor", [v] => ceilFloorFn "floor" false v
| "factorial", [v] => factorialFn v
| _, _ => .error (.typeErr "wrong number of arguments")

/-! ### The whitelist tables -/

/-- The keys of `_MATH_FUNCS`. -/
def mathFuncNames : List String :=
  ["sin", "cos", "tan", "asin", "acos", "atan", "sqrt", "log", "log10", "ln",
   "exp", "abs", "ceil", "floor", "factorial"]

/-- `_CONSTANTS`: every value is a `float` (`math.pi`, `math.e`, `math.tau`,
`math.inf`, `math.nan`), none of them exactly representable, hence all
opaque. -/
def constTable : String → Option Value
| "pi" => some (.floatV .piR)
| "e" => some (.floatV .eulerR)
| "tau" => some (.floatV .tauR)
| "inf" => some (.floatV .infR)
| "nan" => some (.floatV .nanR)
| _ => none

/-! ### `_eval_ast` -/

mutual

/-- Recursive evaluation of an AST node, mirroring `_eval_ast`:
numeric (and, because `bool` is a subtype of `int`, boolean) constants
evaluate to themselves and other constants raise; `BinOp`/`UnaryOp` evaluate
operands and apply the whitelisted operator, wrapping any exception;
`Call` requires a direct `Name` in `_MATH_FUNCS` (checked before the
arguments are evaluated) and passes only the positional `node.args`;
`Name` looks up `_CONSTANTS`; `Tuple` evaluates to a tuple of values. -/
def evalAst : Expr → Except Err Value
| .constE c =>
    match c with
    | .intC n => .ok (.intV n)
    | .floatC q => .ok (.floatV (.ofRat q))
    | .boolC b => .ok (.boolV b)
    | .strC _ => .error (.unsupConst "str")
    | .noneC => .error (.unsupConst "NoneType")
| .binOp l o r => do
    let a ← evalAst l
    let b ← evalAst r
    match applyBin o a b with
    | .ok v => .ok v
    | .error e => .error (.opFailed e)
| .unaryOp o e => do
    let a ← evalAst e
    match applyUn o a with
    | .ok v => .ok v
    | .error ex => .error (.opFailed ex)
| .callE f args _ =>
    match f with
    | .nameE fname =>
        if fname ∈ mathFuncNames then do
          let vs ← evalList args
          match applyFun fname vs with
          | .ok v => .ok v
          | .error e => .error (.opFailed e)
        else .error (.funcNotAllowed fname)
    | _ => .error .onlyDirectCalls
| .nameE id =>
    match constTable id with
    | some v => .ok v
    | none => .error (.nameNotAllowed id)
| .tupleE elts => do
    let vs ← evalList elts
    .ok (.tupleV vs)

/-- Left-to-right evaluation of a node list (`[_eval_ast(a) for a in ...]`). -/
def evalList : List Expr → Except Err (List Value)
| [] => .ok []
| e :: es => do
    let v ← evalAst e
    let vs ← evalList es
    .ok (v :: vs)

end

/-! ### Tokenizer

Models CPython's tokenizer on the modelled surface.  Fuel-based structural
recursion (one fuel unit per emitted token / skipped character), so that
everything kernel-reduces. -/

inductive Tok
| intT (n : ℕ)
| floatT (q : PRat)
| strT (s : String)
| nameT (s : String)
| plusT | minusT | starT | slashT | dstarT | dslashT | percentT
| lparT | rparT | commaT | eqT
deriving DecidableEq, Repr

/-- Decimal digit character. -/
def digitChar (d : ℕ) : Char := Char.ofNat (48 + d)

/-- Greedily read a run of decimal digits, accumulating their value. -/
def lexNat : List Char → ℕ → ℕ × List Char
| [], acc => (acc, [])
| c :: cs, acc =>
    if c.isDigit then lexNat cs (10 * acc + (c.toNat - 48)) else (acc, c :: cs)

/-- Read a digit run, also counting the digits (for fractional parts). -/
def lexCnt : List Char → ℕ → ℕ → ℕ × ℕ × List Char
| [], acc, cnt => (acc, cnt, [])
| c :: cs, acc, cnt =>
    if c.isDigit then lexCnt cs (10 * acc + (c.toNat - 48)) (cnt + 1) else (acc, cnt, c :: cs)

/-- Read an identifier continuation (letters, digits, underscore). -/
def lexName : List Char → List Char × List Char
| [] => ([], [])
| c :: cs =>
    if c.isAlphanum || c = '_' then
      let (w, r) := lexName cs
      (c :: w, r)
    else ([], c :: cs)

/-- Read a string literal body up to the closing quote (no escape sequences;
none are needed by the modelled inputs). -/
def lexStr (quote : Char) : List Char → Option (List Char × List Char)
| [] => none
| c :: cs =>
    if c = quote then some ([], cs)
    else (lexStr quote cs).map (fun p => (c :: p.1, p.2))

def quoteS : Char := Char.ofNat 39

def quoteD : Char := Char.ofNat 34

/-- Lex one numeric literal starting at digit `c`: integer digits, then an
optional fractional part after `'.'`.  The float value is exact:
`v.fr = (v * 10^cnt + fr) / 10^cnt`. -/
def numTok (c : Char) (cs : List Char) : Tok × List Char :=
  match lexNat (c :: cs) 0 with
  | (v, rest) =>
    match rest with
    | '.' :: rest2 =>
        match lexCnt rest2 0 0 with
        | (fr, cnt, rest3) => (Tok.floatT ⟨(v : ℤ) * 10 ^ cnt + fr, (10 : ℤ) ^ cnt⟩, rest3)
    | _ => (Tok.intT v, rest)

/-- Lex one non-numeric, non-whitespace token: leading-dot floats,
identifiers, string literals, and the operator/punctuation symbols. -/
def otherTok (c : Char) (cs : List Char) : Except String (Tok × List Char) :=
  if c = '.' then
    match lexCnt cs 0 0 with
    | (fr, cnt, rest3) =>
        if cnt = 0 then .error "unexpected character"
        else .ok (Tok.floatT ⟨(fr : ℤ), (10 : ℤ) ^ cnt⟩, rest3)
  else if c.isAlpha || c = '_' then
    match lexName (c :: cs) with
    | (w, rest) => .ok (Tok.nameT (String.mk w), rest)
  else if c = quoteS || c = quoteD then
    match lexStr c cs with
    | none => .error "unterminated string literal"
    | some (w, rest) => .ok (Tok.strT (String.mk w), rest)
  else if c = '*' then
    match cs with
    | '*' :: cs2 => .ok (Tok.dstarT, cs2)
    | _ => .ok (Tok.starT, cs)
  else if c = '/' then
    match cs with
    | '/' :: cs2 => .ok (Tok.dslashT, cs2)
    | _ => .ok (Tok.slashT, cs)
  else if c = '+' then .ok (Tok.plusT, cs)
  else if c = '-' then .ok (Tok.minusT, cs)
  else if c = '%' then .ok (Tok.percentT, cs)
  else if c = '(' then .ok (Tok.lparT, cs)
  else if c = ')' then .ok (Tok.rparT, cs)
  else if c = ',' then .ok (Tok.commaT, cs)
  else if c = '=' then .ok (Tok.eqT, cs)
  else .error "unexpected character"

def tokAux : ℕ → List Char → Except String (List Tok)
| _, [] => .ok []
| 0, _ => .error "tokenizer fuel exhausted"
| fuel + 1, c :: cs =>
    if c.isWhitespace then tokAux fuel cs
    else if c.isDigit then
      match numTok c cs with
      | (t, rest) => tokAux fuel rest >>= fun ts => .ok (t :: ts)
    else
      match otherTok c cs with
      | .error m => .error m
      | .ok (t, rest) => tokAux fuel rest >>= fun ts => .ok (t :: ts)

def tokenize (l : List Char) : Except String (List Tok) := tokAux (l.length + 1) l

/-! ### Parser

Recursive-descent parser for Python's `eval`-mode expression grammar
restricted to the modelled surface, with Python's precedence: comma tuples,
then `+ -`, then `* / // %`, then unary `+ -`, then the right-associative
`**` (which binds tighter than a unary minus on its left but allows a unary
operator in its right operand), then call trailers and atoms.  Keyword
arguments `name=expr` are parsed into the `Call` node's keyword list, as
`ast.parse` does. -/

def startsExpr (ts : List Tok) : Bool :=
  match ts with
  | .intT _ :: _ => true
  | .floatT _ :: _ => true
  | .strT _ :: _ => true
  | .nameT _ :: _ => true
  | .lparT :: _ => true
  | .plusT :: _ => true
  | .minusT :: _ => true
  | _ => false

mutual

def parseTestlist : ℕ → List Tok → Except String (Expr × List Tok)
| 0, _ => .error "parser fuel exhausted"
| fu + 1, ts => do
    let (e, ts1) ← parseA fu ts
    match ts1 with
    | .commaT :: rest => do
        let (es, ts2) ← parseElems fu rest
        .ok (.tupleE (e :: es), ts2)
    | _ => .ok (e, ts1)

def parseElems : ℕ → List Tok → Except String (List Expr × List Tok)
| 0, _ => .error "parser fuel exhausted"
| fu + 1, ts =>
    if startsExpr ts then do
      let (e, ts1) ← parseA fu ts
      match ts1 with
      | .commaT :: rest => do
          let (es, ts2) ← parseElems fu rest
          .ok (e :: es, ts2)
      | _ => .ok ([e], ts1)
    else .ok ([], ts)

def parseA : ℕ → List Tok → Except String (Expr × List Tok)
| 0, _ => .error "parser fuel exhausted"
| fu + 1, ts => do
    let (e, ts1) ← parseT fu ts
    parseALoop fu e ts1

def parseALoop : ℕ → Expr → List Tok → Except String (Expr × List Tok)
| 0, _, _ => .error "parser fuel exhausted"
| fu + 1, acc, ts =>
    match ts with
    | .plusT :: rest => do
        let (e, ts1) ← parseT fu rest
        parseALoop fu (.binOp acc .add e) ts1
    | .minusT :: rest => do
        let (e, ts1) ← parseT fu rest
        parseALoop fu (.binOp acc .sub e) ts1
    | _ => .ok (acc, ts)

def parseT : ℕ → List Tok → Except String (Expr × List Tok)
| 0, _ => .error "parser fuel exhausted"
| fu + 1, ts => do
    let (e, ts1) ← parseF fu ts
    parseTLoop fu e ts1

def parseTLoop : ℕ → Expr → List Tok → Except String (Expr × List Tok)
| 0, _, _ => .error "parser fuel exhausted"
| fu + 1, acc, ts =>
    match ts with
    | .starT :: rest => do
        let (e, ts1) ← parseF fu rest
        parseTLoop fu (.binOp acc .mult e) ts1
    | .slashT :: rest => do
        let (e, ts1) ← parseF fu rest
        parseTLoop fu (.binOp acc .div e) ts1
    | .dslashT :: rest => do
        let (e, ts1) ← parseF fu rest
        parseTLoop fu (.binOp acc .floordiv e) ts1
    | .percentT :: rest => do
        let (e, ts1) ← parseF fu rest
        parseTLoop fu (.binOp acc .mod e) ts1
    | _ => .ok (acc, ts)

def parseF : ℕ → List Tok → Except String (Expr × List Tok)
| 0, _ => .error "parser fuel exhausted"
| fu + 1, ts =>
    match ts with
    | .plusT :: rest => do
        let (e, ts1) ← parseF fu rest
        .ok (.unaryOp .uadd e, ts1)
    | .minusT :: rest => do
        let (e, ts1) ← parseF fu rest
        .ok (.unaryOp .usub e, ts1)
    | _ => parsePow fu ts

def parsePow : ℕ → List Tok → Except String (Expr × List Tok)
| 0, _ => .error "parser fuel exhausted"
| fu + 1, ts => do
    let (a, ts1) ← parseAtomTr fu ts
    match ts1 with
    | .dstarT :: rest => do
        let (b, ts2) ← parseF fu rest
        .ok (.binOp a .pow b, ts2)
    | _ => .ok (a, ts1)

def parseAtomTr : ℕ → List Tok → Except String (Expr × List Tok)
| 0, _ => .error "parser fuel exhausted"
| fu + 1, ts => do
    let (a, ts1) ← parseAtom fu ts
    parseTrail fu a ts1

def parseTrail : ℕ → Expr → List Tok → Except String (Expr × List Tok)
| 0, _, _ => .error "parser fuel exhausted"
| fu + 1, acc, ts =>
    match ts with
    | .lparT :: .rparT :: rest2 => parseTrail fu (.callE acc [] []) rest2
    | .lparT :: rest => do
        let (args, kwargs, ts2) ← parseArgs fu false rest
        match ts2 with
        | .rparT :: rest3 => parseTrail fu (.callE acc args kwargs) rest3
        | _ => .error "expected closing parenthesis"
    | _ => .ok (acc, ts)

def parseArgs : ℕ → Bool → List Tok →
    Except String (List Expr × List (String × Expr) × List Tok)
| 0, _, _ => .error "parser fuel exhausted"
| fu + 1, seenKw, ts =>
    match ts with
    | .nameT n :: .eqT :: rest => do
        let (e, ts1) ← parseA fu rest
        match ts1 with
        | .commaT :: rest2 =>
            if startsExpr rest2 then do
              let (args, kwargs, ts2) ← parseArgs fu true rest2
              .ok (args, (n, e) :: kwargs, ts2)
            else .ok ([], [(n, e)], rest2)
        | _ => .ok ([], [(n, e)], ts1)
    | _ =>
        if seenKw then .error "positional argument follows keyword argument"
        else do
          let (e, ts1) ← parseA fu ts
          match ts1 with
          | .commaT :: rest2 =>
              if startsExpr rest2 then do
                let (args, kwargs, ts2) ← parseArgs fu seenKw rest2
                .ok (e :: args, kwargs, ts2)
              else .ok ([e], [], rest2)
          | _ => .ok ([e], [], ts1)

def parseAtom : ℕ → List Tok → Except String (Expr × List Tok)
| 0, _ => .error "parser fuel exhausted"
| fu + 1, ts =>
    match ts with
    | .intT n :: rest => .ok (.constE (.intC (n : ℤ)), rest)
    | .floatT q :: rest => .ok (.constE (.floatC q), rest)
    | .strT s :: rest => .ok (.constE (.strC s), rest)
    | .nameT n :: rest =>
        if n = "True" then .ok (.constE (.boolC true), rest)
        else if n = "False" then .ok (.constE (.boolC false), rest)
        else if n = "None" then .ok (.constE .noneC, rest)
        else .ok (.nameE n, rest)
    | .lparT :: .rparT :: rest => .ok (.tupleE [], rest)
    | .lparT :: rest => do
        let (e, ts1) ← parseTestlist fu rest
        match ts1 with
        | .rparT :: rest2 => .ok (e, rest2)
        | _ => .error "expected closing parenthesis"
    | _ => .error "unexpected token"

end

/-- Parse a complete token stream in `eval` mode (everything must be
consumed). -/
def parseTop (ts : List Tok) : Except String Expr := do
  let (e, rest) ← parseTestlist (10 * (ts.length + 1)) ts
  match rest with
  | [] => .ok e
  | _ => .error "invalid syntax"

/-! ### The `safe_eval` pipeline -/

/-- The `expr.replace("^", "**")` normalisation. -/
def caretSub : List Char → List Char
| [] => []
| c :: cs => if c = '^' then '*' :: '*' :: caretSub cs else c :: caretSub cs

/-- The denylist of `safe_eval` (checked on the substituted text). -/
def forbidden : List (List Char) :=
  [[';'], ['_', '_'], "import".toList, "exec".toList, "eval".toList,
   "os.".toList, "sys.".toList, "subprocess".toList]

/-- Boolean prefix test on character lists. -/
def isPrefAt : List Char → List Char → Bool
| [], _ => true
| _ :: _, [] => false
| a :: as, b :: bs => a = b && isPrefAt as bs

/-- Boolean substring test (`p in l`). -/
def containsSub (p : List Char) : List Char → Bool
| [] => isPrefAt p []
| c :: cs => isPrefAt p (c :: cs) || containsSub p cs

def forbiddenHit (l : List Char) : Bool := forbidden.any (fun p => containsSub p l)

/-- `not expr or not expr.strip()`. -/
def isBlank (s : String) : Bool := s.data.all Char.isWhitespace

mutual

/-- Whether any `ast.keyword` node occurs in the tree.  If the keyword list
of a `Call` is non-empty a keyword node occurs there; keyword values are
inside those nodes, so they need no separate scan. -/
def hasKw : Expr → Bool
| .constE _ => false
| .binOp l _ r => hasKw l || hasKw r
| .unaryOp _ e => hasKw e
| .callE f args kwargs => !kwargs.isEmpty || hasKw f || hasKwList args
| .nameE _ => false
| .tupleE elts => hasKwList elts

/-- Keyword scan over child lists. -/
def hasKwList : List Expr → Bool
| [] => false
| e :: es => hasKw e || hasKwList es

end

/-- The `ast.walk` validation loop of `safe_eval`.  Restricted to the node
kinds producible by the modelled grammar, the only node the loop can reject
is `ast.keyword`: `Expression`, `BinOp`, `UnaryOp`, `Call`, `Name`,
`Constant`, `Tuple`, `Load` and all seven operator classes are in the
permitted tuple, and every producible `BinOp` operator is a key of
`_OPERATORS` (`ast.BitXor` is unreachable because `^` was substituted away).
Since every rejection raises the same `EvalError`, the walk order (BFS in
CPython) does not affect the result. -/
def walkCheck (e : Expr) : Except Err Unit :=
  if hasKw e then .error (.disallowedNode "keyword") else .ok ()

/-- The full `safe_eval` pipeline: empty check, `^` substitution, denylist,
parse, AST-walk validation, evaluation. -/
def safe_eval (s : String) : Except Err Value :=
  if isBlank s then .error .emptyExpr
  else
    let l := caretSub s.data
    if forbiddenHit l then .error .invalidToken
    else
      match tokenize l with
      | .error m => .error (.parseErr m)
      | .ok ts =>
        match parseTop ts with
        | .error m => .error (.parseErr m)
        | .ok e =>
          match walkCheck e with
          | .error er => .error er
          | .ok _ => evalAst e

/-! ### Decimal rendering and the `compute` button handler -/

/-- Decimal digits of a natural number, most significant first (fuel-based so
that it kernel-reduces; `n + 1` fuel always suffices). -/
def digitsOfAux : ℕ → ℕ → List Char
| 0, _ => []
| fuel + 1, n =>
    if n < 10 then [digitChar n] else digitsOfAux fuel (n / 10) ++ [digitChar (n % 10)]

def digitsOf (n : ℕ) : List Char := digitsOfAux (n + 1) n

/-- Decimal string of a natural number. -/
def natLit (n : ℕ) : String := String.mk (digitsOf n)

def numDigits (n : ℕ) : ℕ := (digitsOf n).length

/-- For `a > 0`: the decimal exponent `e` with `10 ^ (e-1) ≤ a < 10 ^ e`
(digit-count estimate plus a one-step correction). -/
def decExp (a : PRat) : ℤ :=
  let c : ℤ := (numDigits a.num.toNat : ℤ) - (numDigits a.den.toNat : ℤ)
  if (pow10 c).bleP a then c + 1 else c

/-- Round to the nearest integer, ties to even (C `printf` rounding used by
`format(x, ".12g")`). -/
def roundHalfEvenP (m : PRat) : ℤ :=
  let f := m.floorP
  let r := m.subP (PRat.ofInt f)
  if r.bltP ⟨1, 2⟩ then f
  else if PRat.bltP ⟨1, 2⟩ r then f + 1
  else if f % 2 = 0 then f else f + 1

/-- Round to `d` significant decimal digits: the exact value of
`float(f"{x:.12g}")` for `d = 12` (IEEE rounding of the intermediate double
abstracted away, as everywhere in this model). -/
def roundSig (d : ℕ) (q : PRat) : PRat :=
  if q.isZero then ⟨0, 1⟩
  else
    let a := q.absP
    let k : ℤ := (d : ℤ) - decExp a
    let r := PRat.ofInt (roundHalfEvenP (a.mulP (pow10 k)))
    let m := r.divP (pow10 k)
    if q.num < 0 then m.negP else m

/-- The display formatting of `compute`: `float` results are replaced by
`float(f"{result:.12g}")`, everything else (`int`, `bool`, tuples) is kept
as-is.  Rounding of opaque symbolic floats is abstracted (kept as-is). -/
def displayValue : Value → Value
| .floatV (.ofRat q) => .floatV (.ofRat (roundSig 12 q))
| v => v

/-- Per-entry history payload: `compute` stores either the display value or
the error. -/
inductive Outcome
| val (v : Value)
| errO (e : Err)
| emptyWarn

/-- Python `str.strip()` (default whitespace stripping). -/
def stripStr (s : String) : String :=
  String.mk (((s.data.dropWhile Char.isWhitespace).reverse.dropWhile Char.isWhitespace).reverse)

/-- One click of the `Compute` button: strip the input, warn on empty input
(history unchanged), otherwise evaluate and prepend
`(expression, result_display)` — the display value, not the raw result — or
`(expression, error)` to the history.  The first component is what the user
sees; the stored history entry is what `Copy last result to input` offers for
chaining. -/
def computeStep (input : String) (hist : List (String × Outcome)) :
    Outcome × List (String × Outcome) :=
  let expression := stripStr input
  if expression = "" then (.emptyWarn, hist)
  else
    match safe_eval expression with
    | .ok r => (.val (displayValue r), (expression, .val (displayValue r)) :: hist)
    | .error e => (.errO e, (expression, .errO e) :: hist)

/-- The stored numeric value a following computation would chain from: the
value component of the newest history entry. -/
def storedValue (hist : List (String × Outcome)) : Option Value :=
  match hist with
  | (_, .val v) :: _ => some v
  | _ => none

/-! ## Helper lemmas -/

theorem mem_of_isPrefAt {p l : List Char} (h : isPrefAt p l = true) : ∀ c ∈ p, c ∈ l := by
  induction p generalizing l with
  | nil => intro c hc; cases hc
  | cons a as ih =>
      cases l with
      | nil => cases h
      | cons b bs =>
          simp only [isPrefAt, Bool.and_eq_true, decide_eq_true_eq] at h
          intro c hc
          rcases List.mem_cons.mp hc with rfl | hc
          · exact h.1 ▸ List.mem_cons_self _ _
          · exact List.mem_cons_of_mem _ (ih h.2 c hc)

theorem mem_of_containsSub {p l : List Char} (h : containsSub p l = true) :
    ∀ c ∈ p, c ∈ l := by
  induction l with
  | nil =>
      cases p with
      | nil => intro c hc; cases hc
      | cons a as => cases h
  | cons b bs ih =>
      simp only [containsSub, Bool.or_eq_true] at h
      rcases h with h | h
      · exact mem_of_isPrefAt h
      · exact fun c hc => List.mem_cons_of_mem _ (ih h c hc)

theorem mem_of_caretSub {c : Char} {l : List Char} (h : c ∈ caretSub l) :
    c ∈ l ∨ (c = '*' ∧ '^' ∈ l) := by
  induction l with
  | nil => cases h
  | cons a as ih =>
      have step : c ∈ caretSub as → c ∈ a :: as ∨ (c = '*' ∧ '^' ∈ a :: as) := by
        intro hmem
        rcases ih hmem with h' | ⟨hc, h'⟩
        · exact Or.inl (List.mem_cons_of_mem _ h')
        · exact Or.inr ⟨hc, List.mem_cons_of_mem _ h'⟩
      by_cases ha : a = '^'
      · subst ha
        simp only [caretSub, if_pos rfl] at h
        rcases List.mem_cons.mp h with rfl | h
        · exact Or.inr ⟨rfl, List.mem_cons_self _ _⟩
        rcases List.mem_cons.mp h with rfl | h
        · exact Or.inr ⟨rfl, List.mem_cons_self _ _⟩
        · exact step h
      · simp only [caretSub, if_neg ha] at h
        rcases List.mem_cons.mp h with rfl | h
        · exact Or.inl (List.mem_cons_self _ _)
        · exact step h

theorem nonblank_of_forbiddenHit {s : String} (h : forbiddenHit (caretSub s.data) = true) :
    isBlank s = false := by
  have hex : ∃ c, c ∈ caretSub s.data ∧ c.isWhitespace = false := by
    simp only [forbiddenHit, forbidden, List.any_eq_true] at h
    obtain ⟨p, hp, hcs⟩ := h
    have hmem := mem_of_containsSub hcs
    fin_cases hp
    · exact ⟨';', hmem ';' (by decide), by decide⟩
    · exact ⟨'_', hmem '_' (by decide), by decide⟩
    · exact ⟨'i', hmem 'i' (by decide), by decide⟩
    · exact ⟨'x', hmem 'x' (by decide), by decide⟩
    · exact ⟨'v', hmem 'v' (by decide), by decide⟩
    · exact ⟨'o', hmem 'o' (by decide), by decide⟩
    · exact ⟨'y', hmem 'y' (by decide), by decide⟩
    · exact ⟨'u', hmem 'u' (by decide), by decide⟩
  obtain ⟨c, hc, hw⟩ := hex
  have : ∃ d, d ∈ s.data ∧ d.isWhitespace = false := by
    rcases mem_of_caretSub hc with hcs | ⟨rfl, hcaret⟩
    · exact ⟨c, hcs, hw⟩
    · exact ⟨'^', hcaret, by decide⟩
  obtain ⟨d, hd, hdw⟩ := this
  simp only [isBlank]
  cases hx : s.data.all Char.isWhitespace with
  | false => rfl
  | true =>
      have := List.all_eq_true.mp hx d hd
      rw [hdw] at this
      cases this

theorem except_bind_ok {α β ε : Type} (x : α) (g : α → Except ε β) :
    (Except.ok x >>= g : Except ε β) = g x := rfl

theorem evalAst_unaryOp (o : UOp) (e : Expr) :
    evalAst (.unaryOp o e) = (evalAst e) >>= (fun a =>
      match applyUn o a with
      | .ok v => .ok v
      | .error ex => .error (Err.opFailed ex)) := rfl

theorem digitChar_facts {d : ℕ} (h : d < 10) :
    (digitChar d).isDigit = true ∧ (digitChar d).isWhitespace = false ∧
    digitChar d ≠ '^' ∧ (digitChar d).toNat - 48 = d := by
  interval_cases d <;> exact ⟨rfl, rfl, by decide, rfl⟩

theorem digitsOfAux_congr (n : ℕ) : ∀ f g, n < f → n < g →
    digitsOfAux f n = digitsOfAux g n := by
  induction n using Nat.strong_induction_on with
  | _ n ih =>
      intro f g hf hg
      match f, g with
      | f' + 1, g' + 1 =>
        simp only [digitsOfAux]
        by_cases h10 : n < 10
        · simp [h10]
        · simp only [if_neg h10]
          have hlt : n / 10 < n := Nat.div_lt_self (by omega) (by omega)
          rw [ih (n / 10) hlt f' g' (by omega) (by omega)]

theorem digitsOf_small {n : ℕ} (h : n < 10) : digitsOf n = [digitChar n] := by
  simp [digitsOf, digitsOfAux, h]

theorem digitsOf_large {n : ℕ} (h : 10 ≤ n) :
    digitsOf n = digitsOf (n / 10) ++ [digitChar (n % 10)] := by
  show digitsOfAux (n + 1) n = _
  simp only [digitsOfAux, if_neg (by omega : ¬ n < 10)]
  congr 1
  exact digitsOfAux_congr (n / 10) n (n / 10 + 1)
    (Nat.div_lt_self (by omega) (by omega)) (by omega)

theorem digitsOf_all_digits (n : ℕ) : ∀ c ∈ digitsOf n, ∃ d, d < 10 ∧ c = digitChar d := by
  induction n using Nat.strong_induction_on with
  | _ n ih =>
      intro c hc
      by_cases h10 : n < 10
      · rw [digitsOf_small h10] at hc
        rcases List.mem_cons.mp hc with rfl | h
        · exact ⟨n, h10, rfl⟩
        · cases h
      · rw [digitsOf_large (by omega)] at hc
        rcases List.mem_append.mp hc with h | h
        · exact ih (n / 10) (Nat.div_lt_self (by omega) (by omega)) c h
        · rcases List.mem_cons.mp h with rfl | h
          · exact ⟨n % 10, Nat.mod_lt _ (by omega), rfl⟩
          · cases h

theorem digitsOf_ne_nil (n : ℕ) : digitsOf n ≠ [] := by
  by_cases h10 : n < 10
  · rw [digitsOf_small h10]; simp
  · rw [digitsOf_large (by omega)]; simp

theorem lexNat_digitsOf (n : ℕ) : ∀ (rest : List Char) (acc : ℕ),
    lexNat (digitsOf n ++ rest) acc = lexNat rest (acc * 10 ^ numDigits n + n) := by
  induction n using Nat.strong_induction_on with
  | _ n ih =>
      intro rest acc
      by_cases h10 : n < 10
      · rw [digitsOf_small h10]
        have hnd : numDigits n = 1 := by rw [numDigits, digitsOf_small h10]; rfl
        simp only [List.cons_append, List.nil_append, lexNat, (digitChar_facts h10).1,
          if_true, (digitChar_facts h10).2.2.2]
        rw [hnd]
        congr 1
        ring
      · have hlt : n / 10 < n := Nat.div_lt_self (by omega) (by omega)
        have hm : n % 10 < 10 := Nat.mod_lt _ (by omega)
        rw [digitsOf_large (by omega), List.append_assoc, List.cons_append, List.nil_append,
          ih (n / 10) hlt]
        have hnd : numDigits n = numDigits (n / 10) + 1 := by
          rw [numDigits, numDigits, digitsOf_large (by omega)]
          simp
        simp only [lexNat, (digitChar_facts hm).1, if_true, (digitChar_facts hm).2.2.2]
        rw [hnd]
        congr 1
        have h1 : 10 * (n / 10) + n % 10 = n := by omega
        calc 10 * (acc * 10 ^ numDigits (n / 10) + n / 10) + n % 10
            = acc * (10 ^ numDigits (n / 10) * 10) + (10 * (n / 10) + n % 10) := by ring
          _ = acc * 10 ^ (numDigits (n / 10) + 1) + n := by rw [h1, pow_succ]

theorem tokAux_digits (f n : ℕ) (rest : List Char)
    (hrest : rest = [] ∨ ∃ c cs, rest = c :: cs ∧ c.isDigit = false ∧ c ≠ '.') :
    tokAux (f + 1) (digitsOf n ++ rest) =
      tokAux f rest >>= (fun ts => .ok (Tok.intT n :: ts)) := by
  obtain ⟨c₀, tl, hsplit⟩ : ∃ c₀ tl, digitsOf n = c₀ :: tl := by
    cases hd : digitsOf n with
    | nil => exact absurd hd (digitsOf_ne_nil n)
    | cons x xs => exact ⟨x, xs, rfl⟩
  obtain ⟨d₀, hd₀, hc₀⟩ := digitsOf_all_digits n c₀ (hsplit ▸ List.mem_cons_self _ _)
  have hnum : numTok c₀ (tl ++ rest) = (Tok.intT n, rest) := by
    have hlex : lexNat (c₀ :: (tl ++ rest)) 0 = (n, rest) := by
      rw [← List.cons_append, ← hsplit, lexNat_digitsOf]
      rcases hrest with rfl | ⟨c, cs, rfl, hcd, _⟩
      · simp [lexNat]
      · simp [lexNat, hcd]
    rw [numTok, hlex]
    rcases hrest with rfl | ⟨c, cs, rfl, hcd, hcdot⟩
    · rfl
    · split
      rename_i v' rest' heq
      injection heq with h1 h2
      subst h1
      subst h2
      split
      · rename_i heq2
        injection heq2 with hc h3
        exact absurd hc hcdot
      · rfl
  rw [hsplit, List.cons_append]
  simp only [tokAux, hc₀, (digitChar_facts hd₀).2.1, (digitChar_facts hd₀).1,
    Bool.false_eq_true, if_false, if_true]
  rw [← hc₀, hnum]

theorem tokAux_negpow (F a b : ℕ) :
    tokAux (F + 4) ('-' :: (digitsOf a ++ '*' :: '*' :: digitsOf b)) =
      .ok [.minusT, .intT a, .dstarT, .intT b] := by
  have s1 : tokAux (F + 4) ('-' :: (digitsOf a ++ '*' :: '*' :: digitsOf b)) =
      tokAux (F + 3) (digitsOf a ++ '*' :: '*' :: digitsOf b) >>=
        (fun ts => .ok (Tok.minusT :: ts)) := rfl
  have s2 : tokAux (F + 3) (digitsOf a ++ '*' :: '*' :: digitsOf b) =
      tokAux (F + 2) ('*' :: '*' :: digitsOf b) >>= (fun ts => .ok (Tok.intT a :: ts)) :=
    tokAux_digits (F + 2) a ('*' :: '*' :: digitsOf b)
      (Or.inr ⟨'*', '*' :: digitsOf b, rfl, by decide, by decide⟩)
  have s3 : tokAux (F + 2) ('*' :: '*' :: digitsOf b) =
      tokAux (F + 1) (digitsOf b) >>= (fun ts => .ok (Tok.dstarT :: ts)) := rfl
  have s4 : tokAux (F + 1) (digitsOf b) =
      tokAux F [] >>= (fun ts => .ok (Tok.intT b :: ts)) := by
    have h := tokAux_digits F b [] (Or.inl rfl)
    rw [List.append_nil] at h
    exact h
  have s5 : tokAux F ([] : List Char) = .ok [] := by
    cases F <;> rfl
  rw [s1, s2, s3, s4, s5]
  rfl

theorem tokenize_negpow (a b : ℕ) :
    tokenize ('-' :: (digitsOf a ++ '*' :: '*' :: digitsOf b)) =
      .ok [.minusT, .intT a, .dstarT, .intT b] := by
  rw [tokenize]
  have hlen : ('-' :: (digitsOf a ++ '*' :: '*' :: digitsOf b)).length + 1 =
      ((digitsOf a).length + (digitsOf b).length) + 4 := by
    simp [List.length_cons, List.length_append]
    omega
  rw [hlen]
  exact tokAux_negpow _ a b

theorem caretSub_append (l₁ l₂ : List Char) :
    caretSub (l₁ ++ l₂) = caretSub l₁ ++ caretSub l₂ := by
  induction l₁ with
  | nil => rfl
  | cons c cs ih =>
      by_cases hc : c = '^' <;> simp [caretSub, hc, ih]

theorem caretSub_of_no_caret {l : List Char} (h : ∀ c ∈ l, c ≠ '^') : caretSub l = l := by
  induction l with
  | nil => rfl
  | cons c cs ih =>
      simp [caretSub, h c (List.mem_cons_self _ _),
        ih (fun d hd => h d (List.mem_cons_of_mem _ hd))]

theorem caretSub_digits (n : ℕ) : caretSub (digitsOf n) = digitsOf n := by
  apply caretSub_of_no_caret
  intro c hc
  obtain ⟨d, hd, rfl⟩ := digitsOf_all_digits n c hc
  exact (digitChar_facts hd).2.2.1

theorem caretSub_negpow (a b : ℕ) :
    caretSub ('-' :: (digitsOf a ++ '^' :: digitsOf b)) =
      '-' :: (digitsOf a ++ '*' :: '*' :: digitsOf b) := by
  simp [caretSub, caretSub_append, caretSub_digits]

theorem forbiddenHit_negpow (a b : ℕ) :
    forbiddenHit ('-' :: (digitsOf a ++ '*' :: '*' :: digitsOf b)) = false := by
  have hmem : ∀ c ∈ ('-' :: (digitsOf a ++ '*' :: '*' :: digitsOf b)),
      c = '-' ∨ c = '*' ∨ c.isDigit = true := by
    intro c hc
    rcases List.mem_cons.mp hc with rfl | hc
    · exact Or.inl rfl
    rcases List.mem_append.mp hc with hc | hc
    · obtain ⟨d, hd, rfl⟩ := digitsOf_all_digits a c hc
      exact Or.inr (Or.inr (digitChar_facts hd).1)
    rcases List.mem_cons.mp hc with rfl | hc
    · exact Or.inr (Or.inl rfl)
    rcases List.mem_cons.mp hc with rfl | hc
    · exact Or.inr (Or.inl rfl)
    · obtain ⟨d, hd, rfl⟩ := digitsOf_all_digits b c hc
      exact Or.inr (Or.inr (digitChar_facts hd).1)
  have key : ∀ (p : List Char) (c₀ : Char), c₀ ∈ p → c₀ ≠ '-' → c₀ ≠ '*' →
      c₀.isDigit = false →
      containsSub p ('-' :: (digitsOf a ++ '*' :: '*' :: digitsOf b)) = false := by
    intro p c₀ hc₀ h1 h2 h3
    cases hcs : containsSub p ('-' :: (digitsOf a ++ '*' :: '*' :: digitsOf b))
    · rfl
    · exfalso
      have hin := mem_of_containsSub hcs c₀ hc₀
      rcases hmem c₀ hin with rfl | rfl | hd
      · exact h1 rfl
      · exact h2 rfl
      · rw [hd] at h3; cases h3
  simp [forbiddenHit, forbidden,
    key [';'] ';' (by decide) (by decide) (by decide) (by decide),
    key ['_', '_'] '_' (by decide) (by decide) (by decide) (by decide),
    key ['i', 'm', 'p', 'o', 'r', 't'] 'i' (by decide) (by decide) (by decide) (by decide),
    key ['e', 'x', 'e', 'c'] 'x' (by decide) (by decide) (by decide) (by decide),
    key ['e', 'v', 'a', 'l'] 'v' (by decide) (by decide) (by decide) (by decide),
    key ['o', 's', '.'] 'o' (by decide) (by decide) (by decide) (by decide),
    key ['s', 'y', 's', '.'] 'y' (by decide) (by decide) (by decide) (by decide),
    key ['s', 'u', 'b', 'p', 'r', 'o', 'c', 'e', 's', 's'] 'u'
      (by decide) (by decide) (by decide) (by decide)]

/-! ## Claim theorems -/

/-- Claim C1 (code bug witness): on the input `"(1, 2)"` the evaluator
returns a tuple value as the terminal result — `ast.Tuple` is in the
AST-walk whitelist and `_eval_ast` evaluates it to a Python tuple — contrary
to the docstring "return a numeric result" and to the spec's promise that a
tuple is never a terminal result. -/
theorem claim_C1_codebug : safe_eval "(1, 2)" = .ok (.tupleV [.intV 1, .intV 2]) := rfl

/-- Claim C2: any input whose `^`→`**`-substituted text contains a forbidden
substring is rejected as `ForbiddenToken` (`EvalError "Invalid token in
expression"`), for every such input — parseable or not — so no later stage
(parse, AST walk, evaluation) is ever reached.  The empty-input check cannot
fire first because forbidden substrings contain no whitespace characters. -/
theorem claim_C2 (s : String) (h : forbiddenHit (caretSub s.data) = true) :
    safe_eval s = .error .invalidToken ∧ classify .invalidToken = .forbiddenToken := by
  refine ⟨?_, rfl⟩
  have hb := nonblank_of_forbiddenHit h
  simp [safe_eval, hb, h]

theorem claim_C2_witness : safe_eval "2+2; import os" = .error .invalidToken :=
  (claim_C2 "2+2; import os" (by decide)).1

/-- Claim C3: `^` is rewritten to `**` before parsing and exponentiation
binds tighter than unary minus on its left operand, so `-2^2` evaluates to
`-(2^2) = -4`; more generally, for every pair of (non-negative integer)
numeric literals `a`, `b` written in decimal, `-a^b` evaluates to
`-(a^b)`. -/
theorem claim_C3 :
    safe_eval "-2^2" = .ok (.intV (-4)) ∧
    ∀ a b : ℕ, safe_eval ("-" ++ natLit a ++ "^" ++ natLit b) =
      .ok (.intV (-((a : ℤ) ^ b))) := by
  refine ⟨rfl, ?_⟩
  intro a b
  have hdata : ("-" ++ natLit a ++ "^" ++ natLit b).data =
      '-' :: (digitsOf a ++ '^' :: digitsOf b) := by
    simp [natLit, String.data_append]
  have hblank : isBlank ("-" ++ natLit a ++ "^" ++ natLit b) = false := by
    rw [isBlank, hdata]
    rfl
  have hnld : ∀ n : ℕ, (natLit n).data = digitsOf n := fun n => rfl
  have heval : evalAst (.unaryOp .usub (.binOp (.constE (.intC (a : ℤ))) .pow
      (.constE (.intC (b : ℤ))))) = .ok (.intV (-((a : ℤ) ^ b))) := by
    have h1 : evalAst (.binOp (.constE (.intC (a : ℤ))) .pow (.constE (.intC (b : ℤ)))) =
        .ok (.intV ((a : ℤ) ^ b)) := by
      simp only [evalAst, except_bind_ok]
      simp [applyBin, Value.asInt?, intBin, Int.toNat_natCast, Int.natCast_nonneg]
    rw [evalAst_unaryOp, h1, except_bind_ok]
    simp [applyUn, Value.asInt?]
  have hparse : parseTop [.minusT, .intT a, .dstarT, .intT b] =
      .ok (.unaryOp .usub (.binOp (.constE (.intC (a : ℤ))) .pow
        (.constE (.intC (b : ℤ))))) := rfl
  simp [safe_eval, hblank, hnld, caretSub_negpow, forbiddenHit_negpow, tokenize_negpow,
    hparse, walkCheck, hasKw, hasKwList, heval]

theorem claim_C3_witness :
    safe_eval ("-" ++ natLit 2 ++ "^" ++ natLit 3) = .ok (.intV (-((2 : ℤ) ^ (3 : ℕ)))) :=
  claim_C3.2 2 3

/-- Claim C4: well-formed whitelisted expressions evaluate to the standard
arithmetic results; float-valued results are read back as rationals via
`Value.asQ?` (`math.sqrt(16.0)` and `math.log(100, 10)` are exact in
CPython, so the exact model agrees with the code here). -/
theorem claim_C4 :
    safe_eval "2+2" = .ok (.intV 4) ∧
    safe_eval "2^8" = .ok (.intV 256) ∧
    safe_eval "10 % 3" = .ok (.intV 1) ∧
    safe_eval "10 // 3" = .ok (.intV 3) ∧
    (safe_eval "sqrt(16)").map Value.asQ? = .ok (some 4) ∧
    (safe_eval "log(100, 10)").map Value.asQ? = .ok (some 2) ∧
    safe_eval "factorial(5)" = .ok (.intV 120) := by
  refine ⟨rfl, rfl, rfl, rfl, ?_, ?_, rfl⟩
  · have h : safe_eval "sqrt(16)" = .ok (.floatV (.ofRat ⟨4, 1⟩)) := rfl
    rw [h]
    simp [Except.map, Value.asQ?, PRat.toRat]
  · have h : safe_eval "log(100, 10)" = .ok (.floatV (.ofRat ⟨2, 1⟩)) := rfl
    rw [h]
    simp [Except.map, Value.asQ?, PRat.toRat]

/-- Claim C5: mathematically undefined operations are classified
`DomainError`: `sqrt(-1)` (ValueError: math domain error), `1/0`
(ZeroDivisionError), factorial of any negative integer (ValueError) and of
any float — in particular any non-integer — argument (TypeError in modern
CPython); all four exception families map to the spec's `DomainError`. -/
theorem claim_C5 :
    safe_eval "sqrt(-1)" = .error (.opFailed .mathDomain) ∧
    safe_eval "1/0" = .error (.opFailed .zeroDivision) ∧
    safe_eval "factorial(-1)" = .error (.opFailed .negFactorial) ∧
    safe_eval "factorial(2.5)" = .error (.opFailed .floatFactorial) ∧
    (∀ n : ℤ, n < 0 → factorialFn (.intV n) = .error .negFactorial) ∧
    (∀ q : PRat, factorialFn (.floatV (.ofRat q)) = .error .floatFactorial) ∧
    classify (.opFailed .mathDomain) = .domainError ∧
    classify (.opFailed .zeroDivision) = .domainError ∧
    classify (.opFailed .negFactorial) = .domainError ∧
    classify (.opFailed .floatFactorial) = .domainError := by
  refine ⟨rfl, rfl, rfl, rfl, ?_, fun q => rfl, rfl, rfl, rfl, rfl⟩
  intro n hn
  simp [factorialFn, Value.asInt?, hn]

theorem claim_C5_witness : factorialFn (.intV (-3)) = .error .negFactorial :=
  claim_C5.2.2.2.2.1 (-3) (by decide)

/-- Claim C6: a parsed call to a function name outside `_MATH_FUNCS`, or a
bare name outside `_CONSTANTS`, is rejected as `DisallowedConstruct`; the
check happens before the arguments are touched, so the result is the same
error for every argument list — the foreign function is never invoked and
the name never resolved. -/
theorem claim_C6 :
    safe_eval "open('x')" = .error (.funcNotAllowed "open") ∧
    safe_eval "xyz" = .error (.nameNotAllowed "xyz") ∧
    (∀ (fname : String) (args : List Expr) (kwargs : List (String × Expr)),
        fname ∉ mathFuncNames →
        evalAst (.callE (.nameE fname) args kwargs) = .error (.funcNotAllowed fname)) ∧
    (∀ id : String, constTable id = none →
        evalAst (.nameE id) = .error (.nameNotAllowed id)) ∧
    classify (.funcNotAllowed "open") = .disallowedConstruct ∧
    classify (.nameNotAllowed "xyz") = .disallowedConstruct := by
  refine ⟨rfl, rfl, ?_, ?_, rfl, rfl⟩
  · intro fname args kwargs h
    simp [evalAst, h]
  · intro id h
    simp [evalAst, h]

theorem claim_C6_witness :
    evalAst (.callE (.nameE "open")
      [.binOp (.constE (.intC 1)) .div (.constE (.intC 0))] []) =
      .error (.funcNotAllowed "open") :=
  claim_C6.2.2.1 "open" [.binOp (.constE (.intC 1)) .div (.constE (.intC 0))] []
    (by decide)

/-- Claim C8: evaluation is deterministic and stateless — the outcome of a
`Compute` click depends only on the input string, not on the session history,
and re-evaluating the same input immediately afterwards (with the history the
first click produced) yields the identical outcome. -/
theorem claim_C8 (s : String) (h₁ h₂ : List (String × Outcome)) :
    (computeStep s h₁).1 = (computeStep s h₂).1 ∧
    (computeStep s ((computeStep s h₁).2)).1 = (computeStep s h₁).1 := by
  have key : ∀ hA hB : List (String × Outcome),
      (computeStep s hA).1 = (computeStep s hB).1 := by
    intro hA hB
    unfold computeStep
    dsimp only
    split
    · rfl
    · split <;> rfl
  exact ⟨key h₁ h₂, key _ h₁⟩

theorem claim_C8_witness :
    (computeStep "2+2" []).1 =
      (computeStep "2+2" [("1/0", .errO (.opFailed .zeroDivision))]).1 :=
  (claim_C8 "2+2" [] [("1/0", .errO (.opFailed .zeroDivision))]).1

/-- Claim C9: keyword-argument call syntax is rejected during the AST-walk
validation (`ast.keyword` is not in the permitted node tuple), and
`_eval_ast` forwards only the positional `node.args` — the keyword list of a
`Call` node is ignored entirely by evaluation. -/
theorem claim_C9 :
    safe_eval "log(100, base=10)" = .error (.disallowedNode "keyword") ∧
    classify (.disallowedNode "keyword") = .disallowedConstruct ∧
    (∀ e : Expr, hasKw e = true → walkCheck e = .error (.disallowedNode "keyword")) ∧
    (∀ (f : Expr) (args : List Expr) (kwargs : List (String × Expr)),
        evalAst (.callE f args kwargs) = evalAst (.callE f args [])) := by
  refine ⟨rfl, rfl, ?_, ?_⟩
  · intro e he
    simp [walkCheck, he]
  · intro f args kwargs
    cases f <;> rfl

theorem claim_C9_witness :
    walkCheck (.callE (.nameE "log") [.constE (.intC 100)]
      [("base", .constE (.intC 10))]) = .error (.disallowedNode "keyword") :=
  claim_C9.2.2.1
    (.callE (.nameE "log") [.constE (.intC 100)] [("base", .constE (.intC 10))])
    (by decide)

/-- Claim C10: boolean literals slip through the numeric-literal check
because Python's `bool` is a subtype of `int` — `isinstance(True, (int,
float))` holds — so `evaluate("True")` returns the value `True` (numerically
1) and `evaluate("False")` returns `False` (numerically 0) instead of a
disallowed-construct error. -/
theorem claim_C10 :
    safe_eval "True" = .ok (.boolV true) ∧
    safe_eval "False" = .ok (.boolV false) ∧
    Value.asQ? (.boolV true) = some 1 ∧
    Value.asQ? (.boolV false) = some 0 :=
  ⟨rfl, rfl, rfl, rfl⟩

/-- Claim C7 (counterexample): display rounding does alter the stored value
used for further computation.  For the input `"1/3"` the evaluator's result
is exactly 1/3, but `compute` stores the 12-significant-digit display value
`0.333333333333` in the history — the value `Copy last result to input`
chains from — and the two differ. -/
theorem claim_C7_counterexample :
    safe_eval "1/3" = .ok (.floatV (.ofRat ⟨1, 3⟩)) ∧
    storedValue (computeStep "1/3" []).2 =
      some (.floatV (.ofRat ⟨333333333333, 1000000000000⟩)) ∧
    PRat.toRat ⟨333333333333, 1000000000000⟩ ≠ PRat.toRat ⟨1, 3⟩ := by
  refine ⟨rfl, rfl, ?_⟩
  simp only [PRat.toRat]
  norm_num

/-- Claim C7 (amended): the display-rounding step does not mutate the
evaluation result itself, but the history entry `compute` stores — and
offers for chaining — is the display value `displayValue v`, not the raw
result `v`; for integer-valued results the two coincide. -/
theorem claim_C7_amended (s : String) (h : List (String × Outcome)) (v : Value)
    (hv : safe_eval (stripStr s) = .ok v) :
    computeStep s h =
      (.val (displayValue v), (stripStr s, .val (displayValue v)) :: h) ∧
    (∀ n : ℤ, displayValue (.intV n) = .intV n) := by
  refine ⟨?_, fun n => rfl⟩
  unfold computeStep
  dsimp only
  rcases eq_or_ne (stripStr s) "" with he | he
  · rw [he] at hv
    have hk : safe_eval "" = .error .emptyExpr := rfl
    rw [hk] at hv
    cases hv
  · simp [he, hv]

theorem claim_C7_witness :
    computeStep "2+2" [] = (.val (.intV 4), [("2+2", .val (.intV 4))]) :=
  (claim_C7_amended "2+2" [] (.intV 4) rfl).1

end CalcApp
